import Mathlib

/-!
Verification of the `StableEvaluationAtAPoint` numerical core
(`stableevaluationatapoint.h`) against its specification.

The C++ code works on `Eigen::Vector2d` (pairs of doubles).  We embed points
as pairs of real numbers with explicit component-wise operations mirroring
Eigen's vector arithmetic, and treat `double` arithmetic as exact real
arithmetic.  `LF_ASSERT_MSG` failures (fatal precondition violations) are
modelled by `Option`: a call whose assertion fires evaluates to `none`.

A dimension-1 mesh entity (an edge, as `PSL`/`PDL` observe it through the
`lf::mesh` collaborator) is a triple `(a, b, onBoundary)` of its two corner
points and its `flagEntitiesOnBoundary` flag, written as the nested pair
`(ℝ × ℝ) × (ℝ × ℝ) × Bool`.  A dimension-0 entity (a cell, as `Jstar`
observes it) is a triple `(isTria, quadPoint, gramDet)` of the
`RefEl() == kTria()` flag, the global image of the quadrature rule's single
reference point under the cell's geometry map, and the integration element
there, written `Bool × (ℝ × ℝ) × ℝ`.
-/

namespace StableEvaluationAtAPoint

open Classical

/-- Component-wise subtraction of two 2-D points (Eigen `x - y`). -/
noncomputable def vsub (a b : ℝ × ℝ) : ℝ × ℝ := (a.1 - b.1, a.2 - b.2)

/-- Scalar times vector (Eigen `s * v`). -/
noncomputable def smul2 (s : ℝ) (v : ℝ × ℝ) : ℝ × ℝ := (s * v.1, s * v.2)

/-- Euclidean dot product (Eigen `a.dot(b)`). -/
noncomputable def dot (a b : ℝ × ℝ) : ℝ := a.1 * b.1 + a.2 * b.2

/-- Euclidean norm (Eigen `v.norm()`). -/
noncomputable def vnorm (v : ℝ × ℝ) : ℝ := Real.sqrt (v.1 ^ 2 + v.2 ^ 2)

/-- The value `G` computes when its assertion passes:
`(-1.0/(2*M_PI)) * std::log((x-y).norm())` (line 49). -/
noncomputable def Gval (x y : ℝ × ℝ) : ℝ :=
  (-1 / (2 * Real.pi)) * Real.log (vnorm (vsub x y))

/-- `G(x, y)` (lines 44-53).  `LF_ASSERT_MSG(x != y, ...)` aborts when the two
points coincide, modelled by `none`. -/
noncomputable def G (x y : ℝ × ℝ) : Option ℝ :=
  if x = y then none else some (Gval x y)

/-- The vector `gradG` computes when its assertion passes:
`(-1.0/(2*M_PI * (x-y).norm())) * (x - y)` (line 62).  Note the single
(not squared) norm factor in the denominator, exactly as in the source. -/
noncomputable def gradGval (x y : ℝ × ℝ) : ℝ × ℝ :=
  smul2 (-1 / (2 * Real.pi * vnorm (vsub x y))) (vsub x y)

/-- `gradG(x, y)` (lines 56-66), with the coincidence assertion modelled by
`none`. -/
noncomputable def gradG (x y : ℝ × ℝ) : Option (ℝ × ℝ) :=
  if x = y then none else some (gradGval x y)

/-- Modelled from the spec: `gradG(x, y)` is specified (spec section 4.1 and
claim C1) to return `−(1/(2π‖x−y‖²))·(x−y)`, the gradient with respect to `x`
of `G(x,y) = −(1/2π)·ln‖x−y‖`.  This definition follows the spec's formula,
to be compared with `gradGval`, which follows the source. -/
noncomputable def gradG_claim (x y : ℝ × ℝ) : ℝ × ℝ :=
  smul2 (-1 / (2 * Real.pi * vnorm (vsub x y) ^ 2)) (vsub x y)

/-- C5: for distinct points, `G(x,y)` returns `−(1/2π)·ln‖x−y‖`; at coincident
points the call fails (the `LF_ASSERT_MSG` fires) instead of returning a
finite value. -/
theorem G_formula_and_coincidence_failure (x y : ℝ × ℝ) :
    (x ≠ y → G x y = some ((-1 / (2 * Real.pi)) * Real.log (vnorm (vsub x y)))) ∧
    G x x = none := by
  constructor
  · intro h
    show (if x = y then none else some (Gval x y)) = _
    rw [if_neg h]
    rfl
  · show (if x = x then none else some (Gval x x)) = none
    rw [if_pos rfl]

/-- Witness for C5 at `x = (0,0)`, `y = (1,0)`. -/
theorem G_formula_and_coincidence_failure_witness :
    ((0, 0) : ℝ × ℝ) ≠ (1, 0) ∧
    G (0, 0) (1, 0) =
      some ((-1 / (2 * Real.pi)) * Real.log (vnorm (vsub (0, 0) (1, 0)))) := by
  have hne : ((0, 0) : ℝ × ℝ) ≠ (1, 0) := by
    intro hc
    have h1 : (0 : ℝ) = 1 := congrArg Prod.fst hc
    norm_num at h1
  exact ⟨hne, (G_formula_and_coincidence_failure (0, 0) (1, 0)).1 hne⟩

/-- C7: for distinct points the kernel is symmetric, `G(x,y) = G(y,x)`, and its
gradient is antisymmetric, `gradG(x,y) = −gradG(y,x)`. -/
theorem G_symm_gradG_antisymm (x y : ℝ × ℝ) (h : x ≠ y) :
    G x y = G y x ∧ gradG x y = Option.map (fun v => smul2 (-1) v) (gradG y x) := by
  have hyx : y ≠ x := fun hc => h hc.symm
  have hn : vnorm (vsub x y) = vnorm (vsub y x) := by
    show Real.sqrt ((x.1 - y.1) ^ 2 + (x.2 - y.2) ^ 2)
        = Real.sqrt ((y.1 - x.1) ^ 2 + (y.2 - x.2) ^ 2)
    ring_nf
  constructor
  · show (if x = y then none else some (Gval x y))
        = (if y = x then none else some (Gval y x))
    rw [if_neg h, if_neg hyx]
    show some ((-1 / (2 * Real.pi)) * Real.log (vnorm (vsub x y))) = _
    rw [hn]
    rfl
  · show (if x = y then none else some (gradGval x y))
        = Option.map (fun v => smul2 (-1) v) (if y = x then none else some (gradGval y x))
    rw [if_neg h, if_neg hyx]
    refine congrArg some (Prod.ext_iff.mpr ⟨?_, ?_⟩)
    · show -1 / (2 * Real.pi * vnorm (vsub x y)) * (x.1 - y.1)
          = -1 * (-1 / (2 * Real.pi * vnorm (vsub y x)) * (y.1 - x.1))
      rw [hn]; ring
    · show -1 / (2 * Real.pi * vnorm (vsub x y)) * (x.2 - y.2)
          = -1 * (-1 / (2 * Real.pi * vnorm (vsub y x)) * (y.2 - x.2))
      rw [hn]; ring

/-- Witness for C7 at `x = (0,0)`, `y = (1,0)`. -/
theorem G_symm_gradG_antisymm_witness :
    G (0, 0) (1, 0) = G (1, 0) (0, 0) ∧
    gradG ((0 : ℝ), (0 : ℝ)) (1, 0) =
      Option.map (fun v => smul2 (-1) v) (gradG (1, 0) (0, 0)) :=
  G_symm_gradG_antisymm (0, 0) (1, 0) (by
    intro hc
    have h1 : (0 : ℝ) = 1 := congrArg Prod.fst hc
    norm_num at h1)

/-- C1: the source's `gradG` divides by `‖x−y‖` once, not by `‖x−y‖²`.
At `x = (0,0)`, `y = (2,0)` the code returns `(1/(2π), 0)` whereas the
specified gradient of `G` is `(1/(4π), 0)`; the two first components differ
since `1/(4π) < 1/(2π)`.  This evaluates the code at the failing input. -/
theorem gradG_missing_square_of_norm :
    gradGval (0, 0) (2, 0) = (1 / (2 * Real.pi), 0) ∧
    gradG_claim (0, 0) (2, 0) = (1 / (4 * Real.pi), 0) ∧
    (1 : ℝ) / (4 * Real.pi) < 1 / (2 * Real.pi) := by
  have hpi := Real.pi_pos
  have hn : vnorm (vsub ((0 : ℝ), (0 : ℝ)) (2, 0)) = 2 := by
    show Real.sqrt (((0 : ℝ) - 2) ^ 2 + ((0 : ℝ) - 0) ^ 2) = 2
    rw [show ((0 : ℝ) - 2) ^ 2 + ((0 : ℝ) - 0) ^ 2 = 2 ^ 2 by norm_num]
    exact Real.sqrt_sq (by norm_num)
  refine ⟨?_, ?_, ?_⟩
  · refine Prod.ext_iff.mpr ⟨?_, ?_⟩
    · show -1 / (2 * Real.pi * vnorm (vsub (0, 0) (2, 0))) * ((0 : ℝ) - 2)
          = 1 / (2 * Real.pi)
      rw [hn]
      field_simp
      ring
    · show -1 / (2 * Real.pi * vnorm (vsub (0, 0) (2, 0))) * ((0 : ℝ) - 0) = 0
      ring
  · refine Prod.ext_iff.mpr ⟨?_, ?_⟩
    · show -1 / (2 * Real.pi * vnorm (vsub (0, 0) (2, 0)) ^ 2) * ((0 : ℝ) - 2)
          = 1 / (4 * Real.pi)
      rw [hn]
      field_simp
      ring
    · show -1 / (2 * Real.pi * vnorm (vsub (0, 0) (2, 0)) ^ 2) * ((0 : ℝ) - 0) = 0
      ring
  · rw [div_lt_div_iff₀ (by linarith) (by linarith)]
    nlinarith

/-!
Boundary-potential evaluators `PSL` and `PDL` (lines 72-153).

The mesh abstraction (`lf::mesh`, an external collaborator) exposes the
dimension-1 entities with their corner coordinates together with a
boundary predicate (`flagEntitiesOnBoundary`); an edge's
`lf::geometry::Volume` is its length.  We model the dimension-1 entities of
a mesh as a list of edges `e = (a, b, onBoundary)` (see the header comment),
so `e.1` and `e.2.1` are the two corners and `e.2.2` the boundary flag.
-/

/-- The midpoint of an edge as computed at lines 92-94 and 129-131:
`midpoint(i) = 0.5 * (corners(i,0) + corners(i,1))`. -/
noncomputable def edgeMidpoint (e : (ℝ × ℝ) × (ℝ × ℝ) × Bool) : ℝ × ℝ :=
  (0.5 * (e.1.1 + e.2.1.1), 0.5 * (e.1.2 + e.2.1.2))

/-- Edge length, `lf::geometry::Volume` of a segment. -/
noncomputable def edgeLen (e : (ℝ × ℝ) × (ℝ × ℝ) × Bool) : ℝ := vnorm (vsub e.1 e.2.1)

/-- The outward-normal determination of the unit square used verbatim both in
`PDL` (lines 133-145) and in the `dotgradu_n` lambda inside `pointEval`
(lines 176-189): a chain of strict comparisons against the two diagonals,
with a final `else` producing `(-1, 0)`. -/
noncomputable def outwardNormal (m : ℝ × ℝ) : ℝ × ℝ :=
  if m.1 > m.2 ∧ m.1 < 1 - m.2 then (0, -1)
  else if m.1 > m.2 ∧ m.1 > 1 - m.2 then (1, 0)
  else if m.1 < m.2 ∧ m.1 > 1 - m.2 then (0, 1)
  else (-1, 0)

/-- The sum `PSL` accumulates over the entity loop (lines 85-99): for each
boundary-flagged edge, `v(midpoint) * G(x, midpoint) * Volume`. -/
noncomputable def PSLval (mesh : List ((ℝ × ℝ) × (ℝ × ℝ) × Bool))
    (v : ℝ × ℝ → ℝ) (x : ℝ × ℝ) : ℝ :=
  List.foldr (fun e acc =>
    (if e.2.2 then v (edgeMidpoint e) * Gval x (edgeMidpoint e) * edgeLen e else 0) + acc)
    0 mesh

/-- The sum `PDL` accumulates over the entity loop (lines 122-150): for each
boundary-flagged edge, `v(midpoint) * gradG(x, midpoint).dot(n) * Volume`. -/
noncomputable def PDLval (mesh : List ((ℝ × ℝ) × (ℝ × ℝ) × Bool))
    (v : ℝ × ℝ → ℝ) (x : ℝ × ℝ) : ℝ :=
  List.foldr (fun e acc =>
    (if e.2.2 then
      v (edgeMidpoint e) * dot (gradGval x (edgeMidpoint e)) (outwardNormal (edgeMidpoint e))
        * edgeLen e
    else 0) + acc)
    0 mesh

/-- `x` coincides with the midpoint of some boundary-flagged edge, which makes
the `G` / `gradG` assertion inside the loop fire. -/
def hitsMidpoint (mesh : List ((ℝ × ℝ) × (ℝ × ℝ) × Bool)) (x : ℝ × ℝ) : Prop :=
  ∃ e ∈ mesh, e.2.2 = true ∧ edgeMidpoint e = x

/-- `PSL(mesh, v, x)` (lines 72-103); `none` models the aborted evaluation
when the kernel assertion fires at a boundary-edge midpoint equal to `x`. -/
noncomputable def PSL (mesh : List ((ℝ × ℝ) × (ℝ × ℝ) × Bool))
    (v : ℝ × ℝ → ℝ) (x : ℝ × ℝ) : Option ℝ :=
  if hitsMidpoint mesh x then none else some (PSLval mesh v x)

/-- `PDL(mesh, v, x)` (lines 109-153), with the same abort model as `PSL`. -/
noncomputable def PDL (mesh : List ((ℝ × ℝ) × (ℝ × ℝ) × Bool))
    (v : ℝ × ℝ → ℝ) (x : ℝ × ℝ) : Option ℝ :=
  if hitsMidpoint mesh x then none else some (PDLval mesh v x)

/-- The gradient `gradu` of the fixed test solution inside `pointEval`
(lines 169-172): `(1.0 / (x + one).norm()) * (x + one)` with `one = (1, 0)`,
so `x + one = (x.1 + 1, x.2 + 0)` component-wise. -/
noncomputable def gradu_test (x : ℝ × ℝ) : ℝ × ℝ :=
  smul2 (1 / vnorm (x.1 + 1, x.2 + 0)) (x.1 + 1, x.2 + 0)

/-- The `dotgradu_n` functor inside `pointEval` (lines 175-192): the normal is
determined by the same four-sector comparison chain as in `PDL`, then dotted
with `gradu`. -/
noncomputable def dotgradu_n (x : ℝ × ℝ) : ℝ :=
  dot (gradu_test x) (outwardNormal x)

/-- C9: `PSL` and `PDL` are linear in the boundary datum, for any target point
`x` that does not coincide with a boundary-edge midpoint (so that the kernel
assertions pass and both evaluations return values). -/
theorem PSL_PDL_linear (mesh : List ((ℝ × ℝ) × (ℝ × ℝ) × Bool))
    (v₁ v₂ : ℝ × ℝ → ℝ) (α β : ℝ) (x : ℝ × ℝ) (hx : ¬ hitsMidpoint mesh x) :
    PSL mesh (fun p => α * v₁ p + β * v₂ p) x
      = some (α * PSLval mesh v₁ x + β * PSLval mesh v₂ x) ∧
    PDL mesh (fun p => α * v₁ p + β * v₂ p) x
      = some (α * PDLval mesh v₁ x + β * PDLval mesh v₂ x) := by
  have hS : ∀ m : List ((ℝ × ℝ) × (ℝ × ℝ) × Bool),
      PSLval m (fun p => α * v₁ p + β * v₂ p) x
        = α * PSLval m v₁ x + β * PSLval m v₂ x := by
    intro m
    induction m with
    | nil =>
        show (0 : ℝ) = α * 0 + β * 0
        ring
    | cons e es ih =>
        show (if e.2.2 then
                (α * v₁ (edgeMidpoint e) + β * v₂ (edgeMidpoint e))
                  * Gval x (edgeMidpoint e) * edgeLen e
              else 0)
              + PSLval es (fun p => α * v₁ p + β * v₂ p) x
            = α * PSLval (e :: es) v₁ x + β * PSLval (e :: es) v₂ x
        rw [ih,
          show PSLval (e :: es) v₁ x
              = (if e.2.2 then v₁ (edgeMidpoint e) * Gval x (edgeMidpoint e) * edgeLen e else 0)
                + PSLval es v₁ x from rfl,
          show PSLval (e :: es) v₂ x
              = (if e.2.2 then v₂ (edgeMidpoint e) * Gval x (edgeMidpoint e) * edgeLen e else 0)
                + PSLval es v₂ x from rfl]
        cases hb : e.2.2
        · rw [if_neg (by decide), if_neg (by decide), if_neg (by decide)]
          ring
        · rw [if_pos rfl, if_pos rfl, if_pos rfl]
          ring
  have hD : ∀ m : List ((ℝ × ℝ) × (ℝ × ℝ) × Bool),
      PDLval m (fun p => α * v₁ p + β * v₂ p) x
        = α * PDLval m v₁ x + β * PDLval m v₂ x := by
    intro m
    induction m with
    | nil =>
        show (0 : ℝ) = α * 0 + β * 0
        ring
    | cons e es ih =>
        show (if e.2.2 then
                (α * v₁ (edgeMidpoint e) + β * v₂ (edgeMidpoint e))
                  * dot (gradGval x (edgeMidpoint e)) (outwardNormal (edgeMidpoint e))
                  * edgeLen e
              else 0)
              + PDLval es (fun p => α * v₁ p + β * v₂ p) x
            = α * PDLval (e :: es) v₁ x + β * PDLval (e :: es) v₂ x
        rw [ih,
          show PDLval (e :: es) v₁ x
              = (if e.2.2 then
                  v₁ (edgeMidpoint e)
                    * dot (gradGval x (edgeMidpoint e)) (outwardNormal (edgeMidpoint e))
                    * edgeLen e
                else 0) + PDLval es v₁ x from rfl,
          show PDLval (e :: es) v₂ x
              = (if e.2.2 then
                  v₂ (edgeMidpoint e)
                    * dot (gradGval x (edgeMidpoint e)) (outwardNormal (edgeMidpoint e))
                    * edgeLen e
                else 0) + PDLval es v₂ x from rfl]
        cases hb : e.2.2
        · rw [if_neg (by decide), if_neg (by decide), if_neg (by decide)]
          ring
        · rw [if_pos rfl, if_pos rfl, if_pos rfl]
          ring
  constructor
  · show (if hitsMidpoint mesh x then none
          else some (PSLval mesh (fun p => α * v₁ p + β * v₂ p) x)) = _
    rw [if_neg hx, hS mesh]
  · show (if hitsMidpoint mesh x then none
          else some (PDLval mesh (fun p => α * v₁ p + β * v₂ p) x)) = _
    rw [if_neg hx, hD mesh]

/-- Witness for C9: a one-edge boundary mesh, `x = (5,5)`, `α = 2`, `β = 3`,
`v₁ = (·.1)`, `v₂ ≡ 1`. -/
theorem PSL_PDL_linear_witness :
    PSL [((0, 0), (1, 0), true)] (fun p => 2 * p.1 + 3 * 1) (5, 5)
      = some (2 * PSLval [((0, 0), (1, 0), true)] (fun p => p.1) (5, 5)
              + 3 * PSLval [((0, 0), (1, 0), true)] (fun _ => 1) (5, 5)) ∧
    PDL [((0, 0), (1, 0), true)] (fun p => 2 * p.1 + 3 * 1) (5, 5)
      = some (2 * PDLval [((0, 0), (1, 0), true)] (fun p => p.1) (5, 5)
              + 3 * PDLval [((0, 0), (1, 0), true)] (fun _ => 1) (5, 5)) :=
  PSL_PDL_linear [((0, 0), (1, 0), true)] (fun p => p.1) (fun _ => 1) 2 3 (5, 5)
    (by
      rintro ⟨e, he, -, hm⟩
      rw [List.mem_singleton] at he
      subst he
      have h1 : (0.5 * ((0 : ℝ) + 1)) = 5 := congrArg Prod.fst hm
      norm_num at h1)

/-- C8: the outward normal used by `PDL` is a pure function of the midpoint's
diagonal sector — bottom `(0,-1)`, right `(1,0)`, top `(0,1)`, left `(-1,0)` —
and each boundary edge contributes
`v(midpoint) * (gradG(x, midpoint) · n) * length` to the sum. -/
theorem PDL_normal_sectors_and_integrand (m : ℝ × ℝ) :
    (m.1 > m.2 ∧ m.1 < 1 - m.2 → outwardNormal m = (0, -1)) ∧
    (m.1 > m.2 ∧ m.1 > 1 - m.2 → outwardNormal m = (1, 0)) ∧
    (m.1 < m.2 ∧ m.1 > 1 - m.2 → outwardNormal m = (0, 1)) ∧
    (m.1 < m.2 ∧ m.1 < 1 - m.2 → outwardNormal m = (-1, 0)) ∧
    (∀ (e : (ℝ × ℝ) × (ℝ × ℝ) × Bool) (es : List ((ℝ × ℝ) × (ℝ × ℝ) × Bool))
        (v : ℝ × ℝ → ℝ) (x : ℝ × ℝ),
      PDLval (e :: es) v x
        = (if e.2.2 then
            v (edgeMidpoint e)
              * dot (gradGval x (edgeMidpoint e)) (outwardNormal (edgeMidpoint e))
              * edgeLen e
          else 0) + PDLval es v x) := by
  have hb : outwardNormal m
      = if m.1 > m.2 ∧ m.1 < 1 - m.2 then ((0 : ℝ), (-1 : ℝ))
        else if m.1 > m.2 ∧ m.1 > 1 - m.2 then (1, 0)
        else if m.1 < m.2 ∧ m.1 > 1 - m.2 then (0, 1)
        else (-1, 0) := rfl
  refine ⟨?_, ?_, ?_, ?_, fun e es v x => rfl⟩
  · intro h
    rw [hb, if_pos h]
  · intro h
    rw [hb, if_neg (by rintro ⟨-, h2⟩; linarith [h.2]), if_pos h]
  · intro h
    rw [hb, if_neg (by rintro ⟨h1, -⟩; linarith [h.1]),
        if_neg (by rintro ⟨h1, -⟩; linarith [h.1]), if_pos h]
  · intro h
    rw [hb, if_neg (by rintro ⟨h1, -⟩; linarith [h.1]),
        if_neg (by rintro ⟨h1, -⟩; linarith [h.1]),
        if_neg (by rintro ⟨-, h2⟩; linarith [h.2])]

/-- Witness for C8: one concrete midpoint strictly inside each sector, and the
contribution of one concrete boundary edge. -/
theorem PDL_normal_sectors_and_integrand_witness :
    outwardNormal (0.5, 0.1) = (0, -1) ∧
    outwardNormal (0.9, 0.5) = (1, 0) ∧
    outwardNormal (0.5, 0.9) = (0, 1) ∧
    outwardNormal (0.1, 0.5) = (-1, 0) ∧
    PDLval [((0, 0), (1, 0), true)] (fun _ => 1) (5, 5)
      = (if true then
          1 * dot (gradGval (5, 5) (edgeMidpoint ((0, 0), (1, 0), true)))
                (outwardNormal (edgeMidpoint ((0, 0), (1, 0), true)))
            * edgeLen ((0, 0), (1, 0), true)
        else 0) + PDLval [] (fun _ => 1) (5, 5) :=
  ⟨(PDL_normal_sectors_and_integrand (0.5, 0.1)).1 (by norm_num),
    (PDL_normal_sectors_and_integrand (0.9, 0.5)).2.1 (by norm_num),
    (PDL_normal_sectors_and_integrand (0.5, 0.9)).2.2.1 (by norm_num),
    (PDL_normal_sectors_and_integrand (0.1, 0.5)).2.2.2.1 (by norm_num),
    (PDL_normal_sectors_and_integrand (0, 0)).2.2.2.2
      ((0, 0), (1, 0), true) [] (fun _ => 1) (5, 5)⟩

/-- C10: a midpoint lying exactly on either diagonal of the unit square makes
all three strict-comparison branches fail, so the normal determination shared
by `PDL` and `pointEval`'s `dotgradu_n` functor falls through to the final
`else` branch and yields `(-1, 0)`. -/
theorem diagonal_tie_normal_left (m : ℝ × ℝ) (h : m.1 = m.2 ∨ m.1 = 1 - m.2) :
    outwardNormal m = (-1, 0) ∧ dotgradu_n m = dot (gradu_test m) (-1, 0) := by
  have hb : outwardNormal m
      = if m.1 > m.2 ∧ m.1 < 1 - m.2 then ((0 : ℝ), (-1 : ℝ))
        else if m.1 > m.2 ∧ m.1 > 1 - m.2 then (1, 0)
        else if m.1 < m.2 ∧ m.1 > 1 - m.2 then (0, 1)
        else (-1, 0) := rfl
  have hn : outwardNormal m = (-1, 0) := by
    rcases h with h | h
    · rw [hb, if_neg (by rintro ⟨h1, -⟩; linarith),
          if_neg (by rintro ⟨h1, -⟩; linarith),
          if_neg (by rintro ⟨h1, -⟩; linarith)]
    · rw [hb, if_neg (by rintro ⟨-, h2⟩; linarith),
          if_neg (by rintro ⟨-, h2⟩; linarith),
          if_neg (by rintro ⟨-, h2⟩; linarith)]
  refine ⟨hn, ?_⟩
  show dot (gradu_test m) (outwardNormal m) = dot (gradu_test m) (-1, 0)
  rw [hn]

/-- Witness for C10 at `m = (0.3, 0.3)` (on the main diagonal). -/
theorem diagonal_tie_normal_left_witness :
    outwardNormal (0.3, 0.3) = (-1, 0) ∧
    dotgradu_n (0.3, 0.3) = dot (gradu_test (0.3, 0.3)) (-1, 0) :=
  diagonal_tie_normal_left (0.3, 0.3) (Or.inl rfl)

/-!
The cutoff function `Psi` (lines 204-249).

The C++ signature is
`double Psi(const Eigen::Vector2d y, Eigen::Vector2d gradPsi, double laplPsi)`:
`gradPsi` and `laplPsi` are plain by-value parameters, so the assignments the
function makes to them are assignments to local copies and are lost when the
call returns.  We embed the values the function body computes
(`Psi_val`, `Psi_grad`, `Psi_lapl`) and, separately, the call semantics
actually observed by a caller (`PsiCall`).  The local `half = (0.5, 0.5)`
(line 211) is written inline.
-/

/-- The scaling constant `M_PI/(0.5*sqrt(2) - 1.0)` (line 212). -/
noncomputable def psiC : ℝ := Real.pi / (0.5 * Real.sqrt 2 - 1)

/-- The annulus-branch value (lines 227-228):
`cos(c*(r-0.5)) * cos(c*(r-0.5))` with `r = ‖y - half‖`. -/
noncomputable def PsiAnnulusVal (y : ℝ × ℝ) : ℝ :=
  Real.cos (psiC * (vnorm (vsub y (0.5, 0.5)) - 0.5))
    * Real.cos (psiC * (vnorm (vsub y (0.5, 0.5)) - 0.5))

/-- The annulus-branch gradient (lines 230-232):
`2*cos(c*(r-0.5)) * (-1) * sin(c*(r-0.5)) * c * (1/r) * (y - half)`. -/
noncomputable def PsiAnnulusGrad (y : ℝ × ℝ) : ℝ × ℝ :=
  smul2 (2 * Real.cos (psiC * (vnorm (vsub y (0.5, 0.5)) - 0.5))
          * (-1) * Real.sin (psiC * (vnorm (vsub y (0.5, 0.5)) - 0.5))
          * psiC * (1 / vnorm (vsub y (0.5, 0.5))))
    (vsub y (0.5, 0.5))

/-- The annulus-branch Laplacian (lines 235-244). -/
noncomputable def PsiAnnulusLapl (y : ℝ × ℝ) : ℝ :=
  2 * psiC * psiC * (1 / (vnorm (vsub y (0.5, 0.5)) * vnorm (vsub y (0.5, 0.5))))
      * dot (vsub y (0.5, 0.5)) (vsub y (0.5, 0.5))
      * (Real.sin (psiC * (vnorm (vsub y (0.5, 0.5)) - 0.5))
           * Real.sin (psiC * (vnorm (vsub y (0.5, 0.5)) - 0.5))
         - Real.cos (psiC * (vnorm (vsub y (0.5, 0.5)) - 0.5))
             * Real.cos (psiC * (vnorm (vsub y (0.5, 0.5)) - 0.5)))
    - 2 * psiC * (1 / vnorm (vsub y (0.5, 0.5)))
        * Real.cos (psiC * (vnorm (vsub y (0.5, 0.5)) - 0.5))
        * Real.sin (psiC * (vnorm (vsub y (0.5, 0.5)) - 0.5))

/-- The scalar `Psi_xy` the function body computes and returns
(zone selection at lines 214, 220, 226). -/
noncomputable def Psi_val (y : ℝ × ℝ) : ℝ :=
  if vnorm (vsub y (0.5, 0.5)) ≤ 0.25 * Real.sqrt 2 then 0
  else if 0.5 ≤ vnorm (vsub y (0.5, 0.5)) then 1
  else PsiAnnulusVal y

/-- The gradient the function body assigns to its local `gradPsi` copy. -/
noncomputable def Psi_grad (y : ℝ × ℝ) : ℝ × ℝ :=
  if vnorm (vsub y (0.5, 0.5)) ≤ 0.25 * Real.sqrt 2 then (0, 0)
  else if 0.5 ≤ vnorm (vsub y (0.5, 0.5)) then (0, 0)
  else PsiAnnulusGrad y

/-- The Laplacian the function body assigns to its local `laplPsi` copy. -/
noncomputable def Psi_lapl (y : ℝ × ℝ) : ℝ :=
  if vnorm (vsub y (0.5, 0.5)) ≤ 0.25 * Real.sqrt 2 then 0
  else if 0.5 ≤ vnorm (vsub y (0.5, 0.5)) then 0
  else PsiAnnulusLapl y

/-- Caller-observable semantics of a call `Psi(y, gradPsi, laplPsi)`: the
scalar value is returned, but because `gradPsi` and `laplPsi` are by-value
parameters the caller's own variables keep the values they had before the
call.  The triple is (returned value, caller's gradient variable after the
call, caller's Laplacian variable after the call). -/
noncomputable def PsiCall (y : ℝ × ℝ) (gradPsi : ℝ × ℝ) (laplPsi : ℝ) :
    ℝ × (ℝ × ℝ) × ℝ :=
  (Psi_val y, gradPsi, laplPsi)

/-- C4: the code computes all three outputs from the same zone, but the
gradient and Laplacian never reach the caller: the parameters are by value.
Evaluated at `y = (0.5, 0.5)` (inner zone) with the caller's variables
holding `(7,7)` and `5`, the caller observes value `0` (correct) but gradient
`(7,7)` and Laplacian `5`, while the zone's gradient is `(0,0)` and its
Laplacian `0`; the first components differ since `0 < 7`. -/
theorem Psi_outputs_not_delivered :
    (PsiCall (0.5, 0.5) (7, 7) 5).1 = 0 ∧
    (PsiCall (0.5, 0.5) (7, 7) 5).2.1 = (7, 7) ∧
    (PsiCall (0.5, 0.5) (7, 7) 5).2.2 = 5 ∧
    Psi_grad (0.5, 0.5) = (0, 0) ∧
    Psi_lapl (0.5, 0.5) = 0 ∧
    (0 : ℝ) < 7 := by
  have hzero : vnorm (vsub ((0.5 : ℝ), (0.5 : ℝ)) (0.5, 0.5)) = 0 := by
    show Real.sqrt (((0.5 : ℝ) - 0.5) ^ 2 + ((0.5 : ℝ) - 0.5) ^ 2) = 0
    rw [show ((0.5 : ℝ) - 0.5) ^ 2 + ((0.5 : ℝ) - 0.5) ^ 2 = 0 by norm_num]
    exact Real.sqrt_zero
  have hin : vnorm (vsub ((0.5 : ℝ), (0.5 : ℝ)) (0.5, 0.5)) ≤ 0.25 * Real.sqrt 2 := by
    rw [hzero]
    positivity
  refine ⟨?_, rfl, rfl, ?_, ?_, by norm_num⟩
  · show Psi_val (0.5, 0.5) = 0
    show (if vnorm (vsub ((0.5 : ℝ), (0.5 : ℝ)) (0.5, 0.5)) ≤ 0.25 * Real.sqrt 2 then (0 : ℝ)
          else if 0.5 ≤ vnorm (vsub ((0.5 : ℝ), (0.5 : ℝ)) (0.5, 0.5)) then 1
          else PsiAnnulusVal (0.5, 0.5)) = 0
    rw [if_pos hin]
  · show (if vnorm (vsub ((0.5 : ℝ), (0.5 : ℝ)) (0.5, 0.5)) ≤ 0.25 * Real.sqrt 2
          then ((0 : ℝ), (0 : ℝ))
          else if 0.5 ≤ vnorm (vsub ((0.5 : ℝ), (0.5 : ℝ)) (0.5, 0.5)) then (0, 0)
          else PsiAnnulusGrad (0.5, 0.5)) = (0, 0)
    rw [if_pos hin]
  · show (if vnorm (vsub ((0.5 : ℝ), (0.5 : ℝ)) (0.5, 0.5)) ≤ 0.25 * Real.sqrt 2 then (0 : ℝ)
          else if 0.5 ≤ vnorm (vsub ((0.5 : ℝ), (0.5 : ℝ)) (0.5, 0.5)) then 0
          else PsiAnnulusLapl (0.5, 0.5)) = 0
    rw [if_pos hin]

/-- C6: the annulus formulas match the adjacent constant zones in value and
gradient at both zone boundaries: at `r = 0.25√2` the value is `0` with zero
gradient, and at `r = 0.5` the value is `1` with zero gradient. -/
theorem psi_annulus_boundary_match (y : ℝ × ℝ) :
    (vnorm (vsub y (0.5, 0.5)) = 0.25 * Real.sqrt 2 →
      PsiAnnulusVal y = 0 ∧ PsiAnnulusGrad y = (0, 0)) ∧
    (vnorm (vsub y (0.5, 0.5)) = 0.5 →
      PsiAnnulusVal y = 1 ∧ PsiAnnulusGrad y = (0, 0)) := by
  constructor
  · intro h
    have hden : 0.5 * Real.sqrt 2 - 1 ≠ 0 := by
      have hs2 : Real.sqrt 2 < 2 := by
        nlinarith [Real.sq_sqrt (show (0 : ℝ) ≤ 2 by norm_num), Real.sqrt_nonneg 2]
      intro hc
      nlinarith
    have harg : psiC * (vnorm (vsub y (0.5, 0.5)) - 0.5) = Real.pi / 2 := by
      rw [h]
      show Real.pi / (0.5 * Real.sqrt 2 - 1) * (0.25 * Real.sqrt 2 - 0.5) = Real.pi / 2
      field_simp
      ring
    have hcos : Real.cos (psiC * (vnorm (vsub y (0.5, 0.5)) - 0.5)) = 0 := by
      rw [harg]; exact Real.cos_pi_div_two
    constructor
    · show Real.cos (psiC * (vnorm (vsub y (0.5, 0.5)) - 0.5))
          * Real.cos (psiC * (vnorm (vsub y (0.5, 0.5)) - 0.5)) = 0
      rw [hcos]; ring
    · refine Prod.ext_iff.mpr ⟨?_, ?_⟩
      · show 2 * Real.cos (psiC * (vnorm (vsub y (0.5, 0.5)) - 0.5))
            * (-1) * Real.sin (psiC * (vnorm (vsub y (0.5, 0.5)) - 0.5))
            * psiC * (1 / vnorm (vsub y (0.5, 0.5)))
            * (y.1 - 0.5) = 0
        rw [hcos]; ring
      · show 2 * Real.cos (psiC * (vnorm (vsub y (0.5, 0.5)) - 0.5))
            * (-1) * Real.sin (psiC * (vnorm (vsub y (0.5, 0.5)) - 0.5))
            * psiC * (1 / vnorm (vsub y (0.5, 0.5)))
            * (y.2 - 0.5) = 0
        rw [hcos]; ring
  · intro h
    have harg : psiC * (vnorm (vsub y (0.5, 0.5)) - 0.5) = 0 := by
      rw [h]; ring
    have hcos : Real.cos (psiC * (vnorm (vsub y (0.5, 0.5)) - 0.5)) = 1 := by
      rw [harg]; exact Real.cos_zero
    have hsin : Real.sin (psiC * (vnorm (vsub y (0.5, 0.5)) - 0.5)) = 0 := by
      rw [harg]; exact Real.sin_zero
    constructor
    · show Real.cos (psiC * (vnorm (vsub y (0.5, 0.5)) - 0.5))
          * Real.cos (psiC * (vnorm (vsub y (0.5, 0.5)) - 0.5)) = 1
      rw [hcos]; ring
    · refine Prod.ext_iff.mpr ⟨?_, ?_⟩
      · show 2 * Real.cos (psiC * (vnorm (vsub y (0.5, 0.5)) - 0.5))
            * (-1) * Real.sin (psiC * (vnorm (vsub y (0.5, 0.5)) - 0.5))
            * psiC * (1 / vnorm (vsub y (0.5, 0.5)))
            * (y.1 - 0.5) = 0
        rw [hsin]; ring
      · show 2 * Real.cos (psiC * (vnorm (vsub y (0.5, 0.5)) - 0.5))
            * (-1) * Real.sin (psiC * (vnorm (vsub y (0.5, 0.5)) - 0.5))
            * psiC * (1 / vnorm (vsub y (0.5, 0.5)))
            * (y.2 - 0.5) = 0
        rw [hsin]; ring

/-- Witness for C6: `y = (0.5 + √2/4, 0.5)` lies at radius `0.25√2` and
`y = (1, 0.5)` at radius `0.5`. -/
theorem psi_annulus_boundary_match_witness :
    (PsiAnnulusVal (0.5 + Real.sqrt 2 / 4, 0.5) = 0 ∧
      PsiAnnulusGrad (0.5 + Real.sqrt 2 / 4, 0.5) = (0, 0)) ∧
    (PsiAnnulusVal (1, 0.5) = 1 ∧ PsiAnnulusGrad (1, 0.5) = (0, 0)) := by
  have h1 : vnorm (vsub (0.5 + Real.sqrt 2 / 4, 0.5) (0.5, 0.5)) = 0.25 * Real.sqrt 2 := by
    show Real.sqrt ((0.5 + Real.sqrt 2 / 4 - 0.5) ^ 2 + ((0.5 : ℝ) - 0.5) ^ 2)
        = 0.25 * Real.sqrt 2
    rw [show (0.5 + Real.sqrt 2 / 4 - 0.5) ^ 2 + ((0.5 : ℝ) - 0.5) ^ 2
        = (0.25 * Real.sqrt 2) ^ 2 by ring]
    exact Real.sqrt_sq (by positivity)
  have h2 : vnorm (vsub ((1 : ℝ), (0.5 : ℝ)) (0.5, 0.5)) = 0.5 := by
    show Real.sqrt (((1 : ℝ) - 0.5) ^ 2 + ((0.5 : ℝ) - 0.5) ^ 2) = 0.5
    rw [show ((1 : ℝ) - 0.5) ^ 2 + ((0.5 : ℝ) - 0.5) ^ 2 = 0.5 ^ 2 by norm_num]
    exact Real.sqrt_sq (by norm_num)
  exact ⟨(psi_annulus_boundary_match (0.5 + Real.sqrt 2 / 4, 0.5)).1 h1,
    (psi_annulus_boundary_match (1, 0.5)).2 h2⟩

/-!
`Jstar` (lines 256-298) and the driver `stab_pointEval` (lines 304-320).

The finite-element space and `lf::quad` are external collaborators: the
single-point triangle midpoint rule supplies one reference point and one
weight `w`, and each cell supplies, through its geometry map, the global
image of that reference point and the integration element there (the
`(isTria, quadPoint, gramDet)` triples described in the header comment).

Inside the cell loop the code declares `Eigen::Vector2d gradPsi;` and
`Eigen::VectorXd laplPsi(P);` without initialising them and then calls
`Psi(zeta.col(l), gradPsi, laplPsi(l))`.  Since `Psi` takes those parameters
by value, the call leaves them untouched, and the subsequent accumulation
reads their indeterminate contents.  We model the indeterminate contents by
the parameters `gradPsi0` and `laplPsi0`.
-/

/-- The sum the `Jstar` loop accumulates (lines 274-294), with `gradPsi0` and
`laplPsi0` the indeterminate values of its uninitialised locals. -/
noncomputable def JstarVal (w : ℝ) (cells : List (Bool × (ℝ × ℝ) × ℝ))
    (u : ℝ × ℝ → ℝ) (x : ℝ × ℝ) (gradPsi0 : ℝ × ℝ) (laplPsi0 : ℝ) : ℝ :=
  List.foldr (fun c acc =>
    -(w * u c.2.1
        * (2 * dot (gradGval x c.2.1) gradPsi0 + Gval x c.2.1 * laplPsi0)
        * c.2.2) + acc)
    0 cells

/-- The assertions inside the `Jstar` loop pass: every cell is a triangle
(line 275) and no mapped quadrature point coincides with `x` (the `G` /
`gradG` coincidence assertions). -/
def JstarOk (cells : List (Bool × (ℝ × ℝ) × ℝ)) (x : ℝ × ℝ) : Prop :=
  ∀ c ∈ cells, c.1 = true ∧ c.2.1 ≠ x

/-- `Jstar(fe_space, u, x)` (lines 256-298); `none` models an aborted
evaluation (non-triangular cell or kernel coincidence). -/
noncomputable def Jstar (w : ℝ) (cells : List (Bool × (ℝ × ℝ) × ℝ))
    (u : ℝ × ℝ → ℝ) (x : ℝ × ℝ) (gradPsi0 : ℝ × ℝ) (laplPsi0 : ℝ) : Option ℝ :=
  if JstarOk cells x then some (JstarVal w cells u x gradPsi0 laplPsi0) else none

/-- Modelled from the spec: the sum claim C3 says `Jstar` computes
(spec section 4.5) — the same quadrature sum but with the cutoff's analytic
gradient `Psi_grad` and Laplacian `Psi_lapl` evaluated at each cell's mapped
quadrature point. -/
noncomputable def Jstar_claim (w : ℝ) (cells : List (Bool × (ℝ × ℝ) × ℝ))
    (u : ℝ × ℝ → ℝ) (x : ℝ × ℝ) : ℝ :=
  List.foldr (fun c acc =>
    -(w * u c.2.1
        * (2 * dot (gradGval x c.2.1) (Psi_grad c.2.1) + Gval x c.2.1 * Psi_lapl c.2.1)
        * c.2.2) + acc)
    0 cells

/-- `stab_pointEval(fe_space, u, x)` (lines 304-320).  The result pairs the
returned `double` with a flag recording whether the diagnostic was written to
`std::cerr`; when the point is inside the stability region the code returns
whatever `Jstar` produces, otherwise it prints the diagnostic and returns the
initial value `res = 0.0`. -/
noncomputable def stab_pointEval (w : ℝ) (cells : List (Bool × (ℝ × ℝ) × ℝ))
    (u : ℝ × ℝ → ℝ) (x : ℝ × ℝ) (gradPsi0 : ℝ × ℝ) (laplPsi0 : ℝ) :
    Option (ℝ × Bool) :=
  if vnorm (vsub x (0.5, 0.5)) ≤ 0.25 then
    Option.map (fun v => (v, false)) (Jstar w cells u x gradPsi0 laplPsi0)
  else
    some (0, true)

/-- C3: the loop body of `Jstar` multiplies against the uninitialised locals,
not the cutoff's derivatives.  On a single triangle with mapped quadrature
point `(0.5, 0.6)` (inside the cutoff's inner zone), `u ≡ 1`, `x = (0.5,0.5)`,
weight `1/2`, unit integration element, and the uninitialised locals holding
`(0,0)` and `1`, the code's sum is negative while the specified sum — whose
inner-zone gradient and Laplacian vanish — is `0`. -/
theorem Jstar_ignores_cutoff_derivatives :
    JstarVal (1/2) [(true, (0.5, 0.6), 1)] (fun _ => 1) (0.5, 0.5) (0, 0) 1 < 0 ∧
    Jstar_claim (1/2) [(true, (0.5, 0.6), 1)] (fun _ => 1) (0.5, 0.5) = 0 := by
  have hn : vnorm (vsub ((0.5 : ℝ), (0.5 : ℝ)) (0.5, 0.6)) = 0.1 := by
    show Real.sqrt (((0.5 : ℝ) - 0.5) ^ 2 + ((0.5 : ℝ) - 0.6) ^ 2) = 0.1
    rw [show ((0.5 : ℝ) - 0.5) ^ 2 + ((0.5 : ℝ) - 0.6) ^ 2 = 0.1 ^ 2 by norm_num]
    exact Real.sqrt_sq (by norm_num)
  have hG : 0 < Gval (0.5, 0.5) (0.5, 0.6) := by
    show 0 < -1 / (2 * Real.pi) * Real.log (vnorm (vsub (0.5, 0.5) (0.5, 0.6)))
    rw [hn]
    have hlog : Real.log 0.1 < 0 := Real.log_neg (by norm_num) (by norm_num)
    have hpi := Real.pi_pos
    have hfac : -1 / (2 * Real.pi) < 0 := div_neg_of_neg_of_pos (by norm_num) (by linarith)
    exact mul_pos_of_neg_of_neg hfac hlog
  have hdotz : ∀ g : ℝ × ℝ, dot g (0, 0) = 0 := by
    intro g
    show g.1 * 0 + g.2 * 0 = 0
    ring
  constructor
  · show -(1/2 * (1 : ℝ)
        * (2 * dot (gradGval (0.5, 0.5) (0.5, 0.6)) (0, 0)
           + Gval (0.5, 0.5) (0.5, 0.6) * 1)
        * 1) + 0 < 0
    rw [hdotz]
    nlinarith [hG]
  · have hz : vnorm (vsub ((0.5 : ℝ), (0.6 : ℝ)) (0.5, 0.5)) = 0.1 := by
      show Real.sqrt (((0.5 : ℝ) - 0.5) ^ 2 + ((0.6 : ℝ) - 0.5) ^ 2) = 0.1
      rw [show ((0.5 : ℝ) - 0.5) ^ 2 + ((0.6 : ℝ) - 0.5) ^ 2 = 0.1 ^ 2 by norm_num]
      exact Real.sqrt_sq (by norm_num)
    have hs2 : (1 : ℝ) < Real.sqrt 2 := by
      nlinarith [Real.sq_sqrt (show (0 : ℝ) ≤ 2 by norm_num), Real.sqrt_nonneg 2]
    have hzone : vnorm (vsub ((0.5 : ℝ), (0.6 : ℝ)) (0.5, 0.5)) ≤ 0.25 * Real.sqrt 2 := by
      rw [hz]
      linarith
    have hgrad : Psi_grad (0.5, 0.6) = (0, 0) := by
      show (if vnorm (vsub ((0.5 : ℝ), (0.6 : ℝ)) (0.5, 0.5)) ≤ 0.25 * Real.sqrt 2
            then ((0 : ℝ), (0 : ℝ))
            else if 0.5 ≤ vnorm (vsub ((0.5 : ℝ), (0.6 : ℝ)) (0.5, 0.5)) then (0, 0)
            else PsiAnnulusGrad (0.5, 0.6)) = (0, 0)
      rw [if_pos hzone]
    have hlapl : Psi_lapl (0.5, 0.6) = 0 := by
      show (if vnorm (vsub ((0.5 : ℝ), (0.6 : ℝ)) (0.5, 0.5)) ≤ 0.25 * Real.sqrt 2 then (0 : ℝ)
            else if 0.5 ≤ vnorm (vsub ((0.5 : ℝ), (0.6 : ℝ)) (0.5, 0.5)) then 0
            else PsiAnnulusLapl (0.5, 0.6)) = 0
      rw [if_pos hzone]
    show -(1/2 * (1 : ℝ)
        * (2 * dot (gradGval (0.5, 0.5) (0.5, 0.6)) (Psi_grad (0.5, 0.6))
           + Gval (0.5, 0.5) (0.5, 0.6) * Psi_lapl (0.5, 0.6))
        * 1) + 0 = 0
    rw [hgrad, hlapl, hdotz]
    ring

/-- C2 counterexample: outside the stability region `stab_pointEval` returns
the plain `double` `0.0` — exactly the value a legitimate in-region call can
also return (here: the empty cell list at `x = (0.5, 0.5)`), so the failure
outcome is not distinguishable from a legitimate zero result through the
returned value; only a `stderr` side effect differs. -/
theorem stab_pointEval_failure_returns_plain_zero :
    Option.map Prod.fst
      (stab_pointEval (1/2) [] (fun _ => 1) (1, 1) (0, 0) 0) = some 0 ∧
    Option.map Prod.fst
      (stab_pointEval (1/2) [] (fun _ => 1) (0.5, 0.5) (0, 0) 0) = some 0 := by
  have hn1 : vnorm (vsub ((1 : ℝ), (1 : ℝ)) (0.5, 0.5)) = Real.sqrt 2 / 2 := by
    show Real.sqrt (((1 : ℝ) - 0.5) ^ 2 + ((1 : ℝ) - 0.5) ^ 2) = Real.sqrt 2 / 2
    rw [show ((1 : ℝ) - 0.5) ^ 2 + ((1 : ℝ) - 0.5) ^ 2 = (Real.sqrt 2 / 2) ^ 2 by
      have h2 := Real.sq_sqrt (show (0 : ℝ) ≤ 2 by norm_num)
      nlinarith]
    exact Real.sqrt_sq (by positivity)
  have hout : ¬ vnorm (vsub ((1 : ℝ), (1 : ℝ)) (0.5, 0.5)) ≤ 0.25 := by
    rw [hn1]
    push_neg
    nlinarith [Real.sq_sqrt (show (0 : ℝ) ≤ 2 by norm_num), Real.sqrt_nonneg 2]
  have hin : vnorm (vsub ((0.5 : ℝ), (0.5 : ℝ)) (0.5, 0.5)) ≤ 0.25 := by
    have hzero : vnorm (vsub ((0.5 : ℝ), (0.5 : ℝ)) (0.5, 0.5)) = 0 := by
      show Real.sqrt (((0.5 : ℝ) - 0.5) ^ 2 + ((0.5 : ℝ) - 0.5) ^ 2) = 0
      rw [show ((0.5 : ℝ) - 0.5) ^ 2 + ((0.5 : ℝ) - 0.5) ^ 2 = 0 by norm_num]
      exact Real.sqrt_zero
    rw [hzero]
    norm_num
  constructor
  · show Option.map Prod.fst
        (if vnorm (vsub ((1 : ℝ), (1 : ℝ)) (0.5, 0.5)) ≤ 0.25 then
          Option.map (fun v => (v, false)) (Jstar (1/2) [] (fun _ => 1) (1, 1) (0, 0) 0)
        else some (0, true)) = some 0
    rw [if_neg hout]
    rfl
  · show Option.map Prod.fst
        (if vnorm (vsub ((0.5 : ℝ), (0.5 : ℝ)) (0.5, 0.5)) ≤ 0.25 then
          Option.map (fun v => (v, false)) (Jstar (1/2) [] (fun _ => 1) (0.5, 0.5) (0, 0) 0)
        else some (0, true)) = some 0
    rw [if_pos hin]
    have hok : JstarOk [] (0.5, 0.5) := fun c hc => absurd hc (List.not_mem_nil c)
    show Option.map Prod.fst
        (Option.map (fun v => (v, false))
          (if JstarOk [] ((0.5 : ℝ), (0.5 : ℝ)) then
            some (JstarVal (1/2) [] (fun _ => 1) (0.5, 0.5) (0, 0) 0)
          else none)) = some 0
    rw [if_pos hok]
    rfl

/-- C2 as amended: inside the stability region `stab_pointEval` returns what
`Jstar` returns (no diagnostic); outside it, it writes a diagnostic to
`stderr` and returns the plain default value `0.0`, which is not
distinguishable from a legitimate zero result. -/
theorem stab_pointEval_branches (w : ℝ) (cells : List (Bool × (ℝ × ℝ) × ℝ))
    (u : ℝ × ℝ → ℝ) (x : ℝ × ℝ) (gradPsi0 : ℝ × ℝ) (laplPsi0 : ℝ) :
    (vnorm (vsub x (0.5, 0.5)) ≤ 0.25 →
      stab_pointEval w cells u x gradPsi0 laplPsi0
        = Option.map (fun v => (v, false)) (Jstar w cells u x gradPsi0 laplPsi0)) ∧
    (¬ vnorm (vsub x (0.5, 0.5)) ≤ 0.25 →
      stab_pointEval w cells u x gradPsi0 laplPsi0 = some (0, true)) := by
  constructor
  · intro h
    show (if vnorm (vsub x (0.5, 0.5)) ≤ 0.25 then
            Option.map (fun v => (v, false)) (Jstar w cells u x gradPsi0 laplPsi0)
          else some (0, true)) = _
    rw [if_pos h]
  · intro h
    show (if vnorm (vsub x (0.5, 0.5)) ≤ 0.25 then
            Option.map (fun v => (v, false)) (Jstar w cells u x gradPsi0 laplPsi0)
          else some (0, true)) = _
    rw [if_neg h]

/-- Witness for C2 (amended), exercising both branches at concrete points. -/
theorem stab_pointEval_branches_witness :
    stab_pointEval (1/2) [] (fun _ => 1) (0.5, 0.5) (0, 0) 0
      = Option.map (fun v => (v, false)) (Jstar (1/2) [] (fun _ => 1) (0.5, 0.5) (0, 0) 0) ∧
    stab_pointEval (1/2) [] (fun _ => 1) (1, 1) (0, 0) 0 = some (0, true) := by
  have hin : vnorm (vsub ((0.5 : ℝ), (0.5 : ℝ)) (0.5, 0.5)) ≤ 0.25 := by
    have hzero : vnorm (vsub ((0.5 : ℝ), (0.5 : ℝ)) (0.5, 0.5)) = 0 := by
      show Real.sqrt (((0.5 : ℝ) - 0.5) ^ 2 + ((0.5 : ℝ) - 0.5) ^ 2) = 0
      rw [show ((0.5 : ℝ) - 0.5) ^ 2 + ((0.5 : ℝ) - 0.5) ^ 2 = 0 by norm_num]
      exact Real.sqrt_zero
    rw [hzero]
    norm_num
  have hn1 : vnorm (vsub ((1 : ℝ), (1 : ℝ)) (0.5, 0.5)) = Real.sqrt 2 / 2 := by
    show Real.sqrt (((1 : ℝ) - 0.5) ^ 2 + ((1 : ℝ) - 0.5) ^ 2) = Real.sqrt 2 / 2
    rw [show ((1 : ℝ) - 0.5) ^ 2 + ((1 : ℝ) - 0.5) ^ 2 = (Real.sqrt 2 / 2) ^ 2 by
      have h2 := Real.sq_sqrt (show (0 : ℝ) ≤ 2 by norm_num)
      nlinarith]
    exact Real.sqrt_sq (by positivity)
  have hout : ¬ vnorm (vsub ((1 : ℝ), (1 : ℝ)) (0.5, 0.5)) ≤ 0.25 := by
    rw [hn1]
    push_neg
    nlinarith [Real.sq_sqrt (show (0 : ℝ) ≤ 2 by norm_num), Real.sqrt_nonneg 2]
  exact ⟨(stab_pointEval_branches (1/2) [] (fun _ => 1) (0.5, 0.5) (0, 0) 0).1 hin,
    (stab_pointEval_branches (1/2) [] (fun _ => 1) (1, 1) (0, 0) 0).2 hout⟩

end StableEvaluationAtAPoint
